import Mathlib

/-!
Verification development for the `http-explained` single-connection HTTP
server (`src/main.go`).  The wire parser and response serializer are
shallowly embedded: the connection stream is a list of characters, Go
strings are lists of characters, the Go `map[string][]string` header map is
an association list keyed by exact strings (a determinization of Go's
unordered map that preserves every per-key observation), and fallible Go
functions return `Option` (with `none` standing for the `error`/`panic`
paths).
-/

namespace HttpX

/-- The connection byte stream (the program only ever treats it as text). -/
abbrev ByteStream := List Char

/-! ## bufio.Reader primitives used by the source -/

/-- Embeds `bufio.Reader.ReadString('\n')`: read up to and including the
first newline.  `none` models the error return when the stream ends before
a newline is seen (every caller in the source aborts on that error). -/
def readString : ByteStream → Option (List Char × ByteStream)
  | [] => none
  | c :: cs =>
    if c = '\n' then some ([c], cs)
    else
      match readString cs with
      | none => none
      | some (line, rest) => some (c :: line, rest)

/-- Embeds `strings.Cut(s, sep)` for a one-character separator: split at
the first occurrence.  `none` models `found = false`. -/
def cutChar (sep : Char) : List Char → Option (List Char × List Char)
  | [] => none
  | c :: cs =>
    if c = sep then some ([], cs)
    else
      match cutChar sep cs with
      | none => none
      | some (a, b) => some (c :: a, b)

/-! ## Whitespace trimming -/

/-- The whitespace class of Go's `unicode.IsSpace` restricted to the ASCII
range (the inputs the program manipulates are ASCII protocol text). -/
def isGoSpace (c : Char) : Bool :=
  c == ' ' || c == '\t' || c == '\n' || c == '\x0b' || c == '\x0c' || c == '\r'

/-- The whitespace class of `textproto.TrimString` (`isASCIISpace`). -/
def isTextprotoSpace (c : Char) : Bool :=
  c == ' ' || c == '\t' || c == '\n' || c == '\r'

/-- Drop trailing characters satisfying `p`. -/
def trimRight (p : Char → Bool) (l : List Char) : List Char :=
  (l.reverse.dropWhile p).reverse

/-- Trim characters satisfying `p` from both ends. -/
def trimWith (p : Char → Bool) (l : List Char) : List Char :=
  (trimRight p l).dropWhile p

/-- Embeds `strings.TrimSpace` (on ASCII text). -/
def trimSpace (l : List Char) : List Char := trimWith isGoSpace l

/-- Embeds `textproto.TrimString`. -/
def trimString (l : List Char) : List Char := trimWith isTextprotoSpace l

/-! ## Header map (`map[string][]string`) -/

/-- The header map, as an association list keyed by the exact (case
sensitive) string under which a name first appeared. -/
abbrev Headers := List (List Char × List (List Char))

/-- Embeds `headers[k] = append(headers[k], v)`: extend the value sequence
of the entry with exactly-equal key `k`, creating the entry if missing. -/
def headerAppend (h : Headers) (k v : List Char) : Headers :=
  match h with
  | [] => [(k, [v])]
  | (k', vs) :: t => if k' = k then (k', vs ++ [v]) :: t else (k', vs) :: headerAppend t k v

/-- Embeds Go map indexing `h[k]` on the header map (missing key gives the
empty value list, like a `nil` slice). -/
def headersLookup (h : Headers) (k : List Char) : List (List Char) :=
  match h with
  | [] => []
  | (k', vs) :: t => if k' = k then vs else headersLookup t k

/-- Embeds `http.Header.Get` at the two call sites of the source, where the
key argument is already in canonical MIME casing: first value stored under
the exactly-equal key, or the empty string. -/
def headerGet (h : Headers) (k : List Char) : List Char :=
  match headersLookup h k with
  | [] => []
  | v :: _ => v

/-! ## parseRequestLine (src/main.go:129-142) -/

/-- Embeds `parseRequestLine`: read one line (newline included), cut at the
first space into method and remainder, cut the remainder at the next space
into target and protocol.  No further trimming happens, so the protocol
component keeps the trailing newline.  The remaining stream is returned so
parsing can continue. -/
def parseRequestLine (s : ByteStream) :
    Option (List Char × List Char × List Char × ByteStream) :=
  match readString s with
  | none => none
  | some (line, rest) =>
    match cutChar ' ' line with
    | none => none
    | some (method, r1) =>
      match cutChar ' ' r1 with
      | none => none
      | some (target, proto) => some (method, target, proto, rest)

/-! ## parseMIMEHeader (src/main.go:144-165) -/

/-- Helper: `readString` consumes at least one character on success. -/
theorem readString_length {s : ByteStream} {p : List Char × ByteStream}
    (h : readString s = some p) : p.2.length < s.length := by
  induction s generalizing p with
  | nil => simp [readString] at h
  | cons c cs ih =>
    by_cases hc : c = '\n'
    · simp [readString, hc] at h
      cases h
      simp
    · simp only [readString, if_neg hc] at h
      cases hrec : readString cs with
      | none => rw [hrec] at h; cases h
      | some q =>
        rw [hrec] at h
        cases h
        have := ih hrec
        simp at this ⊢
        omega

/-- Embeds the loop body of `parseMIMEHeader`, threading the header map
accumulated so far: read a line, trim it, stop at a blank line, otherwise
cut at the first colon, trim name and value, and append. -/
def parseMIMEHeaderAux (h : Headers) (s : ByteStream) : Option (Headers × ByteStream) :=
  match hrs : readString s with
  | none => none
  | some (line, rest) =>
    let kv := trimSpace line
    if kv = [] then some (h, rest)
    else
      match cutChar ':' kv with
      | none => none
      | some (k, v) => parseMIMEHeaderAux (headerAppend h (trimSpace k) (trimSpace v)) rest
termination_by s.length
decreasing_by exact readString_length hrs

/-- Embeds `parseMIMEHeader`, starting from the freshly made empty map. -/
def parseMIMEHeader (s : ByteStream) : Option (Headers × ByteStream) :=
  parseMIMEHeaderAux [] s

/-! ## parseContentLength (src/main.go:167-184) -/

/-- Embeds `strconv.ParseUint(s, 10, _)`'s digit loop: `none` on the first
non-digit character, otherwise the accumulated decimal value. -/
def parseUintLoop : List Char → Nat → Option Nat
  | [], acc => some acc
  | c :: cs, acc =>
    if c.isDigit then parseUintLoop cs (acc * 10 + (c.toNat - 48)) else none

/-- Embeds `strconv.ParseUint(s, 10, 63)`: a nonempty string of decimal
digits whose value fits in 63 bits; anything else is an error. -/
def parseUint63 (s : List Char) : Option Nat :=
  if s = [] then none
  else
    match parseUintLoop s 0 with
    | none => none
    | some n => if n < 2 ^ 63 then some n else none

/-- The raw Content-Length value as resolved by `parseContentLength` before
trimming: the first value under the canonical spelling, falling back to the
first value under the fixed lowercase spelling when that is empty. -/
def rawContentLength (h : Headers) : List Char :=
  let cl0 := headerGet h ("Content-Length".toList)
  if cl0.length = 0 then
    match headersLookup h ("content-length".toList) with
    | [] => cl0
    | v :: _ => v
  else cl0

/-- Embeds `parseContentLength`: trim the resolved value; empty means the
sentinel `-1`; otherwise parse as an unsigned 63-bit decimal, `none`
modelling the `bad Content-Length` error. -/
def parseContentLength (h : Headers) : Option Int :=
  let cl := trimString (rawContentLength h)
  if cl = [] then some (-1)
  else
    match parseUint63 cl with
    | none => none
    | some n => some (Int.ofNat n)

/-! ## Body stream (src/main.go:186-206)

`makeBodyReadCloser` pairs `io.LimitReader(r, contentLength)` with
`&naiveCloser{r}`, both aliasing the same `bufio.Reader`.  The reader state
is modelled explicitly: the `LimitReader`'s remaining budget, the bytes
currently buffered inside the `bufio.Reader`, and the bytes still unread on
the underlying connection.  A refill moves all remaining connection bytes
into the buffer (the buffer is modelled as unbounded). -/

structure BodyState where
  remaining : Int
  buffered : ByteStream
  underlying : ByteStream
deriving DecidableEq, Repr

/-- Embeds `makeBodyReadCloser(r, contentLength)`. -/
def makeBodyReadCloser (buf und : ByteStream) (contentLength : Int) : BodyState :=
  ⟨contentLength, buf, und⟩

/-- One `Read` of a single byte through the `LimitReader`: end of stream
once the budget is exhausted or nothing is left to read. -/
def bodyRead1 : BodyState → Option (Char × BodyState)
  | ⟨n, buf, und⟩ =>
    if n ≤ 0 then none
    else
      match buf, und with
      | [], [] => none
      | c :: cs, u => some (c, ⟨n - 1, cs, u⟩)
      | [], c :: cs => some (c, ⟨n - 1, cs, []⟩)

/-- Reading the body to exhaustion (as `ioutil.ReadAll` does), returning
the bytes delivered and the final reader state. -/
def bodyReadAll : BodyState → List Char × BodyState
  | ⟨n, buf, und⟩ =>
    if n ≤ 0 then ([], ⟨n, buf, und⟩)
    else
      match buf, und with
      | [], [] => ([], ⟨n, [], []⟩)
      | c :: cs, u =>
        let p := bodyReadAll ⟨n - 1, cs, u⟩
        (c :: p.1, p.2)
      | [], c :: cs =>
        let p := bodyReadAll ⟨n - 1, cs, []⟩
        (c :: p.1, p.2)
termination_by st => st.buffered.length + st.underlying.length
decreasing_by
  all_goals simp

/-- Embeds `naiveCloser.Close` (first program variant): when the
`bufio.Reader` has buffered bytes, `io.Copy(io.Discard, c.r)` consumes the
whole remaining stream (buffered and underlying alike); otherwise nothing
is discarded.  The `LimitReader` budget is untouched. -/
def naiveCloserClose : BodyState → BodyState
  | ⟨n, buf, und⟩ => if 0 < buf.length then ⟨n, [], []⟩ else ⟨n, buf, und⟩

/-- Embeds the second program variant's closer, `ioutil.NopCloser(r)`:
closing performs no read at all. -/
def nopCloserClose : BodyState → BodyState := fun st => st

/-! ## Response and its serializer (src/main.go:49-86) -/

/-- Embeds the `Response` struct.  The Go zero value is status `0`, a `nil`
header map and a `nil` body buffer. -/
structure Response where
  status : Int
  header : Headers
  data : List Char
deriving DecidableEq, Repr

/-- Decimal digits of a natural number, fuel-structured like the core
`Nat.toDigits` so that it evaluates by kernel reduction; mirrors the `%v`
formatting of a non-negative integer. -/
def natToCharsCore : Nat → Nat → List Char → List Char
  | 0, _, acc => acc
  | fuel + 1, n, acc =>
    let d := Char.ofNat (48 + n % 10)
    if n < 10 then d :: acc else natToCharsCore fuel (n / 10) (d :: acc)

/-- Decimal rendering of a natural number (`fmt.Sprintf("%v", n)`). -/
def natToChars (n : Nat) : List Char := natToCharsCore (n + 1) n []

/-- Decimal rendering of a Go `int` under `%v`. -/
def intToChars (i : Int) : List Char :=
  if i < 0 then '-' :: natToChars (-i).toNat else natToChars i.toNat

/-- Embeds the header-line loop of `respond`: one `"k: v"` line per stored
value, in map order (here: first-appearance order) and per-name insertion
order. -/
def headerLinesOf : Headers → List (List Char)
  | [] => []
  | (k, vs) :: t => vs.map (fun vv => k ++ ": ".toList ++ vv) ++ headerLinesOf t

/-- Embeds `strings.Join(lines, "\n")`. -/
def joinLines : List (List Char) → List Char
  | [] => []
  | [x] => x
  | x :: xs => x ++ '\n' :: joinLines xs

/-- Embeds `Response.respond`: the `HTTP/1.1 <status> OK` status line, the
handler-set header lines, a synthesized `Content-Length` line, a blank
line, then the body verbatim, all separated by single newlines. -/
def Response.respond (r : Response) : List Char :=
  let statusLine := "HTTP/1.1 ".toList ++ intToChars r.status ++ " OK".toList
  let headerList :=
    headerLinesOf r.header ++ ["Content-Length: ".toList ++ natToChars r.data.length]
  statusLine ++ '\n' :: (joinLines headerList ++ '\n' :: '\n' :: r.data)

/-- Embeds `Response.WriteStatus`: `none` models the
`invalid WriteHeader code` panic. -/
def Response.WriteStatus (r : Response) (code : Int) : Option Response :=
  if code < 100 ∨ code > 999 then none else some { r with status := code }

/-- Embeds `Response.WriteHeader` (append a header value). -/
def Response.WriteHeader (r : Response) (field value : List Char) : Response :=
  { r with header := headerAppend r.header field value }

/-- Embeds `Response.WriteData` (append body bytes). -/
def Response.WriteData (r : Response) (d : List Char) : Response :=
  { r with data := r.data ++ d }

/-- Splitting a character list at every newline (the observation used to
state properties of the rendered response). -/
def splitLines : List Char → List (List Char)
  | [] => [[]]
  | c :: cs =>
    if c = '\n' then [] :: splitLines cs
    else
      match splitLines cs with
      | [] => [[c]]
      | l :: ls => (c :: l) :: ls

/-! ## Spec-side notions used to state the claims -/

/-- The first character, if any, is not whitespace. -/
def noLead (l : List Char) : Bool := l.head?.all (fun c => !isGoSpace c)

/-- The last character, if any, is not whitespace. -/
def noTrail (l : List Char) : Bool := l.getLast?.all (fun c => !isGoSpace c)

/-- A well-formed header (name, value) pair, as in the claim about header
blocks: the name holds no colon, neither side holds a newline, and neither
side carries surrounding whitespace (so trimming is the identity on both). -/
def wfPair (p : List Char × List Char) : Prop :=
  ':' ∉ p.1 ∧ '\n' ∉ p.1 ∧ '\n' ∉ p.2 ∧
    noLead p.1 = true ∧ noTrail p.1 = true ∧ noLead p.2 = true ∧ noTrail p.2 = true

instance wfPair.instDecidable (p : List Char × List Char) : Decidable (wfPair p) := by
  unfold wfPair
  infer_instance

/-- The wire form `"<name>: <value>\n"` of one header pair. -/
def renderHeaderLine (p : List Char × List Char) : List Char :=
  p.1 ++ ':' :: ' ' :: p.2 ++ ['\n']

/-- The wire form of a whole header block (without the terminating blank
line). -/
def renderHeaderBlock (ps : List (List Char × List Char)) : List Char :=
  (ps.map renderHeaderLine).flatten

/-- The values of the pairs whose name is exactly (case sensitively) equal
to `name`, in their original order. -/
def valuesFor (name : List Char) : List (List Char × List Char) → List (List Char)
  | [] => []
  | p :: t => if p.1 = name then p.2 :: valuesFor name t else valuesFor name t

/-- The number denoted by a string of decimal digits (most significant
first): the spec-side reading of "parses as a non-negative integer". -/
def decimalNat (s : List Char) : Nat :=
  s.foldl (fun a c => a * 10 + (c.toNat - 48)) 0

/-! ## Basic lemmas about the stream primitives -/

theorem readString_append {a : List Char} (ha : '\n' ∉ a) (rest : ByteStream) :
    readString (a ++ '\n' :: rest) = some (a ++ ['\n'], rest) := by
  induction a with
  | nil => simp [readString]
  | cons c cs ih =>
    have hc : c ≠ '\n' := fun h => ha (h ▸ List.mem_cons_self c cs)
    have ha' : '\n' ∉ cs := fun h => ha (List.mem_cons_of_mem _ h)
    simp [readString, hc, ih ha']

theorem cutChar_append {sep : Char} {a : List Char} (ha : sep ∉ a) (b : List Char) :
    cutChar sep (a ++ sep :: b) = some (a, b) := by
  induction a with
  | nil => simp [cutChar]
  | cons c cs ih =>
    have hc : c ≠ sep := fun h => ha (h ▸ List.mem_cons_self c cs)
    have ha' : sep ∉ cs := fun h => ha (List.mem_cons_of_mem _ h)
    simp [cutChar, hc, ih ha']

/-! ## Claim C1 (request-line parsing) -/

/-- C1, counterexample.  The claim says parsing the well-formed request
line `"GET /x HTTP/1.0\n"` yields protocol version `"HTTP/1.0"` exactly;
the code keeps the line terminator attached to the protocol component, so
it actually yields `"HTTP/1.0\n"`. -/
theorem c1_counterexample :
    parseRequestLine ("GET /x HTTP/1.0\n".toList)
        = some ("GET".toList, "/x".toList, "HTTP/1.0\n".toList, ([] : ByteStream))
      ∧ "HTTP/1.0\n".toList ≠ "HTTP/1.0".toList := by
  decide

/-- C1, amended.  For every well-formed request line `"<M> <T> <P>\n"`
built from space-free, newline-free tokens, parsing yields method `M` and
target `T` exactly, and protocol version `P` with the line terminator still
attached (`P ++ "\n"`): no trimming is applied beyond the two space-splits,
so the terminator read by `ReadString` is never stripped. -/
theorem c1_amended (M T P : List Char) (rest : ByteStream)
    (hM1 : ' ' ∉ M) (hM2 : '\n' ∉ M) (hT1 : ' ' ∉ T) (hT2 : '\n' ∉ T)
    (hP1 : ' ' ∉ P) (hP2 : '\n' ∉ P) :
    parseRequestLine (M ++ ' ' :: (T ++ ' ' :: (P ++ '\n' :: rest)))
      = some (M, T, P ++ ['\n'], rest) := by
  have hassoc : M ++ ' ' :: (T ++ ' ' :: (P ++ '\n' :: rest))
      = (M ++ ' ' :: (T ++ ' ' :: P)) ++ '\n' :: rest := by
    simp
  have hnl : '\n' ∉ M ++ ' ' :: (T ++ ' ' :: P) := by
    simp only [List.mem_append, List.mem_cons]
    rintro (h | h | h | h) <;> simp_all
  have hline : readString (M ++ ' ' :: (T ++ ' ' :: (P ++ '\n' :: rest)))
      = some ((M ++ ' ' :: (T ++ ' ' :: P)) ++ ['\n'], rest) := by
    rw [hassoc]; exact readString_append hnl rest
  have hcut1 : cutChar ' ' (M ++ ' ' :: (T ++ ' ' :: (P ++ ['\n'])))
      = some (M, T ++ ' ' :: (P ++ ['\n'])) :=
    cutChar_append hM1 _
  have hcut2 : cutChar ' ' (T ++ ' ' :: (P ++ ['\n'])) = some (T, P ++ ['\n']) :=
    cutChar_append hT1 _
  simp [parseRequestLine, hline, hcut1, hcut2]

/-- C1 amended, witness at the request line `"GET /x HTTP/1.0\n"`. -/
theorem c1_amended_witness :
    (' ' ∉ "GET".toList ∧ '\n' ∉ "GET".toList ∧ ' ' ∉ "/x".toList ∧ '\n' ∉ "/x".toList
        ∧ ' ' ∉ "HTTP/1.0".toList ∧ '\n' ∉ "HTTP/1.0".toList)
      ∧ parseRequestLine ("GET".toList ++ ' ' :: ("/x".toList ++ ' ' :: ("HTTP/1.0".toList ++ '\n' :: [])))
        = some ("GET".toList, "/x".toList, "HTTP/1.0".toList ++ ['\n'], []) :=
  ⟨by decide,
    c1_amended "GET".toList "/x".toList "HTTP/1.0".toList []
      (by decide) (by decide) (by decide) (by decide) (by decide) (by decide)⟩

/-! ## Claim C2 (exact rendering of the sample response) -/

/-- C2.  Rendering a `Response` with status `200`, exactly one handler-set
header `Content-Type: text/plain`, and body `"hello world"` produces the
exact byte sequence with single-newline separators, the literal reason
phrase `OK`, a synthesized `Content-Length: 11`, a blank line, and the body
verbatim. -/
theorem c2_render :
    Response.respond
        ⟨200, [("Content-Type".toList, ["text/plain".toList])], "hello world".toList⟩
      = "HTTP/1.1 200 OK\nContent-Type: text/plain\nContent-Length: 11\n\nhello world".toList := by
  decide

/-! ## Claim C5 (closing the body stream) -/

/-- C5, counterexample.  Take a body with 3 unread bytes (`"llo"`) followed
by 5 further bytes (`"EXTRA"`) on the stream, all buffered.  Closing
discards everything (8 bytes), not exactly the 3 body bytes: a close that
discarded exactly the body's remainder would leave `"EXTRA"` readable.
Moreover, with an empty buffer the close discards nothing at all, leaving
the body's own stale bytes behind, so the drain does not run on that path
either. -/
theorem c5_counterexample :
    naiveCloserClose ⟨3, "lloEXTRA".toList, []⟩ = ⟨3, [], []⟩
      ∧ naiveCloserClose ⟨3, "lloEXTRA".toList, []⟩ ≠ ⟨3, "EXTRA".toList, []⟩
      ∧ naiveCloserClose ⟨3, [], "llo".toList⟩ = ⟨3, [], "llo".toList⟩ := by
  decide

/-- C5, amended.  In the first program variant, closing the body when the
`bufio` buffer is non-empty drains the entire remaining stream - the
body's unread bytes together with every byte beyond the body - and when
the buffer is empty it drains nothing, even if unread body bytes remain on
the underlying connection.  In the second program variant the closer is
`ioutil.NopCloser`, which never drains. -/
theorem c5_amended (n : Int) (buf und : ByteStream) :
    (buf ≠ [] →
        (naiveCloserClose ⟨n, buf, und⟩).buffered = []
          ∧ (naiveCloserClose ⟨n, buf, und⟩).underlying = [])
      ∧ (buf = [] → naiveCloserClose ⟨n, buf, und⟩ = ⟨n, buf, und⟩)
      ∧ nopCloserClose ⟨n, buf, und⟩ = ⟨n, buf, und⟩ := by
  cases buf <;> simp [naiveCloserClose, nopCloserClose]

/-- C5 amended, witness: a non-empty buffer is fully drained. -/
theorem c5_amended_witness :
    ("ab".toList ≠ ([] : List Char))
      ∧ (naiveCloserClose ⟨3, "ab".toList, "cd".toList⟩).buffered = []
      ∧ (naiveCloserClose ⟨3, "ab".toList, "cd".toList⟩).underlying = [] :=
  ⟨by decide,
    ((c5_amended 3 "ab".toList "cd".toList).1 (by decide)).1,
    ((c5_amended 3 "ab".toList "cd".toList).1 (by decide)).2⟩

/-! ## Claim C9 (status-code validation) -/

/-- C9.  Setting a status code below 100 or above 999 hits the
`invalid WriteHeader code` panic (a fatal programming-error-class failure,
modelled as `none`); every code in `[100, 999]` is stored unchanged. -/
theorem c9_write_status (r : Response) (code : Int) :
    (100 ≤ code ∧ code ≤ 999 → Response.WriteStatus r code = some { r with status := code })
      ∧ ((code < 100 ∨ 999 < code) → Response.WriteStatus r code = none) := by
  constructor
  · rintro ⟨h1, h2⟩
    have : ¬(code < 100 ∨ code > 999) := by omega
    simp [Response.WriteStatus, this]
  · intro h
    have : code < 100 ∨ code > 999 := by omega
    simp [Response.WriteStatus, this]

/-- C9, witness at the codes named by the claim: 42 and 1000 fail, 200 is
stored. -/
theorem c9_write_status_witness :
    Response.WriteStatus ⟨0, [], []⟩ 42 = none
      ∧ Response.WriteStatus ⟨0, [], []⟩ 1000 = none
      ∧ Response.WriteStatus ⟨0, [], []⟩ 200 = some ⟨200, [], []⟩ :=
  ⟨(c9_write_status ⟨0, [], []⟩ 42).2 (by omega),
    (c9_write_status ⟨0, [], []⟩ 1000).2 (by omega),
    (c9_write_status ⟨0, [], []⟩ 200).1 (by omega)⟩

/-! ## Claim C10 (rendering an unset status) -/

/-- C10.  Rendering a freshly constructed `Response` (status never set)
succeeds - `respond` performs no render-time status check - and its
status line is the literal `HTTP/1.1 0 OK`, the zero value serialized
as `0`. -/
theorem c10_unset_status :
    Response.respond ⟨0, [], []⟩ = "HTTP/1.1 0 OK\nContent-Length: 0\n\n".toList
      ∧ (splitLines (Response.respond ⟨0, [], []⟩)).head? = some ("HTTP/1.1 0 OK".toList) := by
  decide

/-! ## Lemmas about the bounded body stream -/

/-- Reading the body to exhaustion delivers exactly the first
`remaining.toNat` characters of the stream (all of it, when shorter). -/
theorem bodyReadAll_fst (st : BodyState) :
    (bodyReadAll st).1 = (st.buffered ++ st.underlying).take st.remaining.toNat := by
  induction st using bodyReadAll.induct with
  | case1 n buf und h =>
    have h0 : n.toNat = 0 := by omega
    rw [bodyReadAll.eq_def]
    simp [h, h0]
  | case2 n h => rw [bodyReadAll.eq_def]; simp [h]
  | case3 n h c cs u ih =>
    have h1 : n.toNat = (n - 1).toNat + 1 := by omega
    rw [bodyReadAll.eq_def]
    simp only [if_neg (by omega : ¬ n ≤ 0)]
    simp only [List.cons_append, h1, List.take_succ_cons]
    simpa using ih
  | case4 n h c cs ih =>
    have h1 : n.toNat = (n - 1).toNat + 1 := by omega
    rw [bodyReadAll.eq_def]
    simp only [if_neg (by omega : ¬ n ≤ 0)]
    simp only [List.nil_append, h1, List.take_succ_cons]
    simpa using ih

/-- After reading the body to exhaustion, one further read reports end of
stream. -/
theorem bodyReadAll_read1 (st : BodyState) :
    bodyRead1 (bodyReadAll st).2 = none := by
  induction st using bodyReadAll.induct with
  | case1 n buf und h =>
    rw [bodyReadAll.eq_def]
    simp [h, bodyRead1]
  | case2 n h =>
    rw [bodyReadAll.eq_def]
    simp [h, bodyRead1]
  | case3 n h c cs u ih =>
    rw [bodyReadAll.eq_def]
    simp only [if_neg (by omega : ¬ n ≤ 0)]
    simpa using ih
  | case4 n h c cs ih =>
    rw [bodyReadAll.eq_def]
    simp only [if_neg (by omega : ¬ n ≤ 0)]
    simpa using ih

/-! ## Claim C3 (bounded body reading) -/

/-- C3.  For every resolved content length `n ≥ 0` and every stream (split
arbitrarily between the `bufio` buffer and the connection) holding at least
`n` further bytes, reading the constructed body stream yields exactly the
first `n` bytes - no more, however many remain - and a further read then
reports end of stream. -/
theorem c3_bounded_body (n : Int) (buf und : ByteStream)
    (h0 : 0 ≤ n) (hlen : n.toNat ≤ (buf ++ und).length) :
    (bodyReadAll (makeBodyReadCloser buf und n)).1 = (buf ++ und).take n.toNat
      ∧ ((bodyReadAll (makeBodyReadCloser buf und n)).1).length = n.toNat
      ∧ bodyRead1 ((bodyReadAll (makeBodyReadCloser buf und n)).2) = none := by
  refine ⟨bodyReadAll_fst _, ?_, bodyReadAll_read1 _⟩
  rw [bodyReadAll_fst]
  simp only [makeBodyReadCloser, List.length_take]
  omega

/-- C3, witness: `Content-Length`-style bound 5 on the stream
`"hello" ++ "EXTRABYTES"`, 3 bytes of it still unbuffered. -/
theorem c3_bounded_body_witness :
    ((0 : Int) ≤ 5 ∧ (5 : Int).toNat ≤ ("helloEXT".toList ++ "RABYTES".toList).length)
      ∧ (bodyReadAll (makeBodyReadCloser "helloEXT".toList "RABYTES".toList 5)).1
          = ("helloEXT".toList ++ "RABYTES".toList).take (5 : Int).toNat
      ∧ ((bodyReadAll (makeBodyReadCloser "helloEXT".toList "RABYTES".toList 5)).1).length
          = (5 : Int).toNat
      ∧ bodyRead1 ((bodyReadAll (makeBodyReadCloser "helloEXT".toList "RABYTES".toList 5)).2)
          = none :=
  ⟨⟨by decide, by decide⟩,
    c3_bounded_body 5 "helloEXT".toList "RABYTES".toList (by decide) (by decide)⟩

/-! ## Claim C4 (missing or empty Content-Length) -/

/-- C4.  When the `Content-Length` header is absent under both the
canonical name and the fixed lowercase fallback spelling, or the resolved
value is empty after trimming, length resolution succeeds with the sentinel
`-1`, and the constructed body stream behaves as already exhausted: the
very first read reports end of stream and reading to exhaustion yields zero
bytes, regardless of what the stream still holds. -/
theorem c4_missing_content_length (h : Headers) (buf und : ByteStream)
    (hyp : (headersLookup h ("Content-Length".toList) = []
            ∧ headersLookup h ("content-length".toList) = [])
          ∨ trimString (rawContentLength h) = []) :
    parseContentLength h = some (-1)
      ∧ bodyRead1 (makeBodyReadCloser buf und (-1)) = none
      ∧ (bodyReadAll (makeBodyReadCloser buf und (-1))).1 = [] := by
  have hraw : trimString (rawContentLength h) = [] := by
    rcases hyp with ⟨h1, h2⟩ | h3
    · have hcl0 : headerGet h ("Content-Length".toList) = [] := by
        rw [headerGet, h1]
      have h2l : headersLookup h (['c', 'o', 'n', 't', 'e', 'n', 't', '-', 'l', 'e', 'n', 'g', 't', 'h']) = [] := h2
      have hr : rawContentLength h = [] := by
        rw [rawContentLength, hcl0]
        simp [h2l]
      rw [hr]
      rfl
    · exact h3
  refine ⟨?_, ?_, ?_⟩
  · simp [parseContentLength, hraw]
  · simp [makeBodyReadCloser, bodyRead1]
  · rw [bodyReadAll_fst]
    simp [makeBodyReadCloser]

/-- C4, witness: no headers at all, with bytes still on the stream. -/
theorem c4_missing_content_length_witness :
    (headersLookup [] ("Content-Length".toList) = []
        ∧ headersLookup [] ("content-length".toList) = [])
      ∧ parseContentLength [] = some (-1)
      ∧ bodyRead1 (makeBodyReadCloser "abc".toList [] (-1)) = none
      ∧ (bodyReadAll (makeBodyReadCloser "abc".toList [] (-1))).1 = [] :=
  ⟨⟨by decide, by decide⟩,
    c4_missing_content_length [] "abc".toList [] (Or.inl ⟨by decide, by decide⟩)⟩

/-! ## Claim C8 (Content-Length value parsing) -/

/-- The digit loop succeeds exactly on all-digit strings and then computes
the decimal value on top of the accumulator. -/
theorem parseUintLoop_eq (s : List Char) (acc : Nat) :
    parseUintLoop s acc =
      if s.all Char.isDigit then some (s.foldl (fun a c => a * 10 + (c.toNat - 48)) acc)
      else none := by
  induction s generalizing acc with
  | nil => simp [parseUintLoop]
  | cons c cs ih =>
    by_cases hc : c.isDigit
    · simp [parseUintLoop, hc, ih]
    · simp [parseUintLoop, hc]

/-- C8.  Whenever the resolved, trimmed `Content-Length` value is
non-empty: if it is a string of decimal digits denoting a value that fits
in a non-negative signed 64-bit integer then resolution succeeds with
exactly that value, and otherwise (any non-digit character, or a value of
`2^63` or more) it fails with the `bad Content-Length` error. -/
theorem c8_content_length_parse (h : Headers)
    (hne : trimString (rawContentLength h) ≠ []) :
    ((trimString (rawContentLength h)).all Char.isDigit
        ∧ decimalNat (trimString (rawContentLength h)) < 2 ^ 63 →
        parseContentLength h = some (Int.ofNat (decimalNat (trimString (rawContentLength h)))))
      ∧ (¬ ((trimString (rawContentLength h)).all Char.isDigit
            ∧ decimalNat (trimString (rawContentLength h)) < 2 ^ 63) →
        parseContentLength h = none) := by
  constructor
  · rintro ⟨hdig, hlt⟩
    have hlt' : (trimString (rawContentLength h)).foldl (fun a c => a * 10 + (c.toNat - 48)) 0
        < 9223372036854775808 := by
      simpa [decimalNat] using hlt
    simp only [parseContentLength, if_neg hne, parseUint63, if_neg hne,
      parseUintLoop_eq, hdig, if_pos, decimalNat]
    simp [hlt']
  · intro hnot
    by_cases hdig : (trimString (rawContentLength h)).all Char.isDigit
    · have hge : ¬ decimalNat (trimString (rawContentLength h)) < 2 ^ 63 := by
        intro hlt; exact hnot ⟨hdig, hlt⟩
      have hge' : ¬ (trimString (rawContentLength h)).foldl (fun a c => a * 10 + (c.toNat - 48)) 0
          < 9223372036854775808 := by
        simpa [decimalNat] using hge
      simp only [parseContentLength, if_neg hne, parseUint63, if_neg hne,
        parseUintLoop_eq, hdig, if_pos, decimalNat]
      simp [hge']
    · simp only [parseContentLength, if_neg hne, parseUint63, if_neg hne,
        parseUintLoop_eq, hdig]
      simp

/-- C8, witness: the header value `"abc"` of the claim fails resolution. -/
theorem c8_content_length_parse_witness :
    trimString (rawContentLength [("Content-Length".toList, ["abc".toList])]) ≠ []
      ∧ parseContentLength [("Content-Length".toList, ["abc".toList])] = none :=
  ⟨by decide,
    (c8_content_length_parse [("Content-Length".toList, ["abc".toList])] (by decide)).2
      (by decide)⟩

/-! ## Lemmas about trimming and the header-line loop -/

theorem dropWhile_head_false {p : Char → Bool} {l : List Char}
    (h : l.head?.all (fun c => !p c) = true) : List.dropWhile p l = l := by
  cases l with
  | nil => rfl
  | cons c cs =>
    have hc : p c = false := by simpa using h
    simp [List.dropWhile_cons, hc]

/-- Trimming is the identity on a string with no whitespace at either
end. -/
theorem trim_invariant {l : List Char} (h1 : noLead l = true) (h2 : noTrail l = true) :
    trimSpace l = l := by
  have hr : List.dropWhile isGoSpace l.reverse = l.reverse := by
    apply dropWhile_head_false
    rw [List.head?_reverse]
    exact h2
  unfold trimSpace trimWith trimRight
  rw [hr, List.reverse_reverse]
  exact dropWhile_head_false h1

/-- The one-step unfolding of the header-parsing loop. -/
theorem parseMIMEHeaderAux_eq (H : Headers) (s : ByteStream) :
    parseMIMEHeaderAux H s =
      match readString s with
      | none => none
      | some (line, rest) =>
        let kv := trimSpace line
        if kv = [] then some (H, rest)
        else
          match cutChar ':' kv with
          | none => none
          | some (k, v) => parseMIMEHeaderAux (headerAppend H (trimSpace k) (trimSpace v)) rest := by
  rw [parseMIMEHeaderAux.eq_def]
  cases hq : readString s with
  | none => rfl
  | some p => rfl

theorem trimSpace_hline_nil (k : List Char) (hkl : noLead k = true) :
    trimSpace (k ++ [':', ' ', '\n']) = k ++ [':'] := by
  unfold trimSpace trimWith trimRight
  have h1 : (k ++ [':', ' ', '\n']).reverse = '\n' :: ' ' :: ':' :: k.reverse := by simp
  rw [h1]
  have h2 : List.dropWhile isGoSpace ('\n' :: ' ' :: ':' :: k.reverse) = ':' :: k.reverse := by
    rw [List.dropWhile_cons, if_pos (by decide), List.dropWhile_cons, if_pos (by decide),
      List.dropWhile_cons, if_neg (by decide)]
  rw [h2]
  have h3 : (':' :: k.reverse).reverse = k ++ [':'] := by simp
  rw [h3, List.dropWhile_append]
  rw [dropWhile_head_false (p := isGoSpace) hkl]
  cases k with
  | nil => rfl
  | cons c cs => simp

theorem trimSpace_hline_cons (k : List Char) (a : Char) (vs : List Char)
    (hkl : noLead k = true) (ha : isGoSpace a = false) :
    trimSpace (k ++ ':' :: ' ' :: (vs ++ [a]) ++ ['\n']) = k ++ ':' :: ' ' :: (vs ++ [a]) := by
  unfold trimSpace trimWith trimRight
  have h1 : (k ++ ':' :: ' ' :: (vs ++ [a]) ++ ['\n']).reverse
      = '\n' :: a :: (vs.reverse ++ ' ' :: ':' :: k.reverse) := by simp
  rw [h1]
  have h2 : List.dropWhile isGoSpace ('\n' :: a :: (vs.reverse ++ ' ' :: ':' :: k.reverse))
      = a :: (vs.reverse ++ ' ' :: ':' :: k.reverse) := by
    rw [List.dropWhile_cons, if_pos (by decide), List.dropWhile_cons, if_neg (by simp [ha])]
  rw [h2]
  have h3 : (a :: (vs.reverse ++ ' ' :: ':' :: k.reverse)).reverse
      = k ++ ':' :: ' ' :: (vs ++ [a]) := by simp
  rw [h3, List.dropWhile_append]
  rw [dropWhile_head_false (p := isGoSpace) hkl]
  cases k with
  | nil => simp [List.dropWhile_cons, show isGoSpace ':' = false from by decide]
  | cons c cs => simp

theorem trimSpace_space_cons (v : List Char) (hvl : noLead v = true) (hvt : noTrail v = true) :
    trimSpace (' ' :: v) = v := by
  cases hv : v with
  | nil => decide
  | cons c cs =>
    subst hv
    unfold trimSpace trimWith trimRight
    have h1 : ((' ' :: (c :: cs)).reverse) = (c :: cs).reverse ++ [' '] := by simp
    rw [h1, List.dropWhile_append]
    have h2 : List.dropWhile isGoSpace (c :: cs).reverse = (c :: cs).reverse := by
      apply dropWhile_head_false
      rw [List.head?_reverse]
      exact hvt
    rw [h2]
    have h3 : ((c :: cs).reverse).isEmpty = false := by simp
    rw [h3]
    simp only [if_false, Bool.false_eq_true]
    have h4 : ((c :: cs).reverse ++ [' ']).reverse = ' ' :: (c :: cs) := by simp
    rw [h4, List.dropWhile_cons, if_pos (by decide)]
    exact dropWhile_head_false hvl

/-- A blank line terminates the header loop, returning the map built so
far and the rest of the stream. -/
theorem parseMIMEHeaderAux_blank (H : Headers) (rest : ByteStream) :
    parseMIMEHeaderAux H ('\n' :: rest) = some (H, rest) := by
  rw [parseMIMEHeaderAux_eq]
  have h1 : readString ('\n' :: rest) = some (['\n'], rest) := by simp [readString]
  rw [h1]
  have h2 : trimSpace ['\n'] = [] := by decide
  simp [h2]

/-- Consuming one well-formed header line appends exactly its (name,
value) pair to the accumulated map. -/
theorem parseMIMEHeaderAux_step (H : Headers) (k v : List Char) (s : ByteStream)
    (hw : wfPair (k, v)) :
    parseMIMEHeaderAux H (renderHeaderLine (k, v) ++ s)
      = parseMIMEHeaderAux (headerAppend H k v) s := by
  obtain ⟨hk1, hk2, hv2, hkl, hkt, hvl, hvt⟩ := hw
  have hline : readString (renderHeaderLine (k, v) ++ s)
      = some ((k ++ ':' :: ' ' :: v) ++ ['\n'], s) := by
    have hnl : '\n' ∉ k ++ ':' :: ' ' :: v := by
      simp only [List.mem_append, List.mem_cons]
      rintro (h | h | h | h) <;> simp_all
    have hassoc : renderHeaderLine (k, v) ++ s = (k ++ ':' :: ' ' :: v) ++ '\n' :: s := by
      simp [renderHeaderLine]
    rw [hassoc]
    exact readString_append hnl s
  rw [parseMIMEHeaderAux_eq, hline]
  cases hv : v with
  | nil =>
    have htrim : trimSpace ((k ++ ':' :: ' ' :: []) ++ ['\n']) = k ++ [':'] := by
      have : (k ++ ':' :: ' ' :: []) ++ ['\n'] = k ++ [':', ' ', '\n'] := by simp
      rw [this]
      exact trimSpace_hline_nil k hkl
    have hne : k ++ [':'] ≠ [] := by simp
    have hcut : cutChar ':' (k ++ [':']) = some (k, []) := by
      have : k ++ [':'] = k ++ ':' :: [] := rfl
      rw [this]
      exact cutChar_append hk1 []
    simp only [htrim, if_neg hne, hcut]
    rw [trim_invariant hkl hkt]
    rfl
  | cons c cs =>
    obtain ⟨a, vs, hva⟩ : ∃ a vs, c :: cs = vs ++ [a] := by
      rcases List.eq_nil_or_concat (c :: cs) with h | ⟨vs, a, h⟩
      · cases h
      · exact ⟨a, vs, by rw [h, List.concat_eq_append]⟩
    have ha : isGoSpace a = false := by
      have hgl : (c :: cs).getLast? = some a := by
        rw [hva, List.getLast?_concat]
      rw [← hv] at hgl
      have hvt2 := hvt
      rw [noTrail, hgl] at hvt2
      simpa using hvt2
    have htrim : trimSpace ((k ++ ':' :: ' ' :: (c :: cs)) ++ ['\n'])
        = k ++ ':' :: ' ' :: (c :: cs) := by
      have h5 : (k ++ ':' :: ' ' :: (c :: cs)) ++ ['\n']
          = k ++ ':' :: ' ' :: (vs ++ [a]) ++ ['\n'] := by rw [← hva]
      rw [h5, trimSpace_hline_cons k a vs hkl ha, ← hva]
    have hne : k ++ ':' :: ' ' :: (c :: cs) ≠ [] := by simp
    have hcut : cutChar ':' (k ++ ':' :: ' ' :: (c :: cs)) = some (k, ' ' :: (c :: cs)) :=
      cutChar_append hk1 _
    simp only [htrim, if_neg hne, hcut]
    rw [trim_invariant hkl hkt]
    have hsp : trimSpace (' ' :: (c :: cs)) = c :: cs := by
      rw [← hv]
      exact trimSpace_space_cons v hvl hvt
    rw [hsp]

/-- Parsing a rendered block of well-formed header lines terminated by a
blank line folds `headerAppend` over the pairs, in order. -/
theorem parseMIMEHeaderAux_block (ps : List (List Char × List Char)) :
    ∀ (H : Headers) (rest : ByteStream), (∀ p ∈ ps, wfPair p) →
      parseMIMEHeaderAux H (renderHeaderBlock ps ++ '\n' :: rest)
        = some (ps.foldl (fun h p => headerAppend h p.1 p.2) H, rest) := by
  induction ps with
  | nil =>
    intro H rest _
    simpa [renderHeaderBlock] using parseMIMEHeaderAux_blank H rest
  | cons p ps ih =>
    intro H rest hwf
    have hassoc : renderHeaderBlock (p :: ps) ++ '\n' :: rest
        = renderHeaderLine p ++ (renderHeaderBlock ps ++ '\n' :: rest) := by
      simp [renderHeaderBlock]
    rw [hassoc]
    have hp : wfPair (p.1, p.2) := by
      have := hwf p (List.mem_cons_self p ps)
      simpa using this
    rw [show renderHeaderLine p = renderHeaderLine (p.1, p.2) from rfl]
    rw [parseMIMEHeaderAux_step H p.1 p.2 _ hp]
    rw [ih (headerAppend H p.1 p.2) rest (fun q hq => hwf q (List.mem_cons_of_mem _ hq))]
    rfl

/-- Appending one value touches exactly the exactly-equal key. -/
theorem headersLookup_headerAppend (h : Headers) (k v name : List Char) :
    headersLookup (headerAppend h k v) name =
      if name = k then headersLookup h name ++ [v] else headersLookup h name := by
  induction h with
  | nil =>
    by_cases hk : name = k
    · subst hk
      simp [headerAppend, headersLookup]
    · have hk' : ¬ k = name := fun hh => hk hh.symm
      simp [headerAppend, headersLookup, hk, hk']
  | cons e t ih =>
    obtain ⟨k', vs⟩ := e
    by_cases he : k' = k
    · subst he
      by_cases hn : name = k'
      · subst hn
        simp [headerAppend, headersLookup]
      · have hn' : ¬ k' = name := fun hh => hn hh.symm
        simp [headerAppend, headersLookup, hn, hn']
    · by_cases hn : k' = name
      · have hnk : ¬ name = k := fun hh => he (hn.trans hh)
        simp [headerAppend, headersLookup, he, hn, hnk]
      · simp [headerAppend, headersLookup, he, hn, ih]

/-- The map built by folding the pairs answers each exact-name lookup with
that name's values in insertion order. -/
theorem headersLookup_foldl (ps : List (List Char × List Char)) :
    ∀ (H : Headers) (name : List Char),
      headersLookup (ps.foldl (fun h p => headerAppend h p.1 p.2) H) name
        = headersLookup H name ++ valuesFor name ps := by
  induction ps with
  | nil => intro H name; simp [valuesFor]
  | cons p ps ih =>
    intro H name
    rw [List.foldl_cons, ih, headersLookup_headerAppend]
    by_cases hn : name = p.1
    · subst hn
      simp [valuesFor]
    · have hn' : ¬ p.1 = name := fun hh => hn hh.symm
      simp [valuesFor, hn, hn']

/-! ## Claim C6 (header-block parsing: exact casing, insertion order) -/

/-- C6.  Parsing any block of well-formed `"<name>: <value>\n"` lines
terminated by a blank line succeeds and yields the map obtained by
appending the pairs in order; looking any name up in that map by exact
(case-sensitive) string equality returns precisely the values of the
pairs carrying that exact name, in their original order.  No case folding
happens: differently-cased spellings are distinct keys, each stored under
the casing of its first appearance. -/
theorem c6_header_block (ps : List (List Char × List Char)) (rest : ByteStream)
    (hwf : ∀ p ∈ ps, wfPair p) :
    parseMIMEHeader (renderHeaderBlock ps ++ '\n' :: rest)
        = some (ps.foldl (fun h p => headerAppend h p.1 p.2) [], rest)
      ∧ ∀ name, headersLookup (ps.foldl (fun h p => headerAppend h p.1 p.2) []) name
          = valuesFor name ps := by
  refine ⟨parseMIMEHeaderAux_block ps [] rest hwf, fun name => ?_⟩
  rw [headersLookup_foldl]
  simp [headersLookup]

/-- C6, witness: a block with a repeated name and a differently-cased
spelling of it.  The repeated `X-Dup` values accumulate in order; the
lowercase `x-dup` stays a distinct key. -/
theorem c6_header_block_witness :
    (∀ p ∈ ([("X-Dup".toList, "a".toList), ("x-dup".toList, "B".toList),
            ("X-Dup".toList, "b".toList)] : List (List Char × List Char)), wfPair p)
      ∧ parseMIMEHeader
          (renderHeaderBlock [("X-Dup".toList, "a".toList), ("x-dup".toList, "B".toList),
            ("X-Dup".toList, "b".toList)] ++ '\n' :: [])
        = some ([("X-Dup".toList, ["a".toList, "b".toList]),
            ("x-dup".toList, ["B".toList])], [])
      ∧ headersLookup
            ([("X-Dup".toList, "a".toList), ("x-dup".toList, "B".toList),
              ("X-Dup".toList, "b".toList)].foldl (fun h p => headerAppend h p.1 p.2) [])
            ("X-Dup".toList)
          = ["a".toList, "b".toList] := by
  have h := c6_header_block
    [("X-Dup".toList, "a".toList), ("x-dup".toList, "B".toList), ("X-Dup".toList, "b".toList)]
    [] (by decide)
  refine ⟨by decide, ?_, ?_⟩
  · rw [h.1]
    decide
  · rw [h.2 ("X-Dup".toList)]
    decide

/-! ## Lemmas about the rendered response's line structure -/

theorem splitLines_ne_nil (l : List Char) : splitLines l ≠ [] := by
  induction l with
  | nil => simp [splitLines]
  | cons c cs ih =>
    by_cases hc : c = '\n'
    · simp [splitLines, hc]
    · simp only [splitLines, if_neg hc]
      cases h : splitLines cs with
      | nil => simp
      | cons x xs => simp

theorem splitLines_append {a : List Char} (ha : '\n' ∉ a) (b : List Char) :
    splitLines (a ++ '\n' :: b) = a :: splitLines b := by
  induction a with
  | nil => simp [splitLines]
  | cons c cs ih =>
    have hc : c ≠ '\n' := fun h => ha (h ▸ List.mem_cons_self c cs)
    have ha' : '\n' ∉ cs := fun h => ha (List.mem_cons_of_mem _ h)
    simp only [List.cons_append, splitLines, if_neg hc]
    rw [show cs.append ('\n' :: b) = cs ++ '\n' :: b from rfl, ih ha']

theorem splitLines_joinLines {ls : List (List Char)} (hne : ls ≠ [])
    (hnl : ∀ l ∈ ls, '\n' ∉ l) (t : List Char) :
    splitLines (joinLines ls ++ '\n' :: t) = ls ++ splitLines t := by
  induction ls with
  | nil => cases hne rfl
  | cons x xs ih =>
    cases xs with
    | nil =>
      have hx : '\n' ∉ x := hnl x (List.mem_cons_self x [])
      simp only [joinLines, splitLines_append hx, List.cons_append, List.nil_append]
    | cons y ys =>
      have hx : '\n' ∉ x := hnl x (List.mem_cons_self _ _)
      have hassoc : joinLines (x :: y :: ys) ++ '\n' :: t
          = x ++ '\n' :: (joinLines (y :: ys) ++ '\n' :: t) := by
        simp [joinLines]
      rw [hassoc, splitLines_append hx,
        ih (by simp) (fun l hl => hnl l (List.mem_cons_of_mem _ hl))]
      rfl

theorem takeWhile_append_blank {ls : List (List Char)} (h : ∀ l ∈ ls, l ≠ [])
    (z : List (List Char)) :
    List.takeWhile (fun l => !l.isEmpty) (ls ++ [] :: z) = ls := by
  induction ls with
  | nil => simp [List.takeWhile_cons]
  | cons x xs ih =>
    have hx : x ≠ [] := h x (List.mem_cons_self _ _)
    have hx' : (!x.isEmpty) = true := by simp [hx]
    simp only [List.cons_append, List.takeWhile_cons, hx', if_true]
    rw [ih (fun l hl => h l (List.mem_cons_of_mem _ hl))]

theorem digitChar_not_newline (m : Nat) (hm : m < 10) : Char.ofNat (48 + m) ≠ '\n' := by
  interval_cases m <;> decide

theorem natToCharsCore_not_newline (fuel n : Nat) (acc : List Char)
    (hacc : '\n' ∉ acc) : '\n' ∉ natToCharsCore fuel n acc := by
  induction fuel generalizing n acc with
  | zero => simpa [natToCharsCore] using hacc
  | succ f ih =>
    have hd : Char.ofNat (48 + n % 10) ≠ '\n' := digitChar_not_newline _ (Nat.mod_lt _ (by omega))
    by_cases hn : n < 10
    · simp only [natToCharsCore, if_pos hn]
      intro hmem
      rcases List.mem_cons.mp hmem with h | h
      · exact hd h.symm
      · exact hacc h
    · simp only [natToCharsCore, if_neg hn]
      apply ih
      intro hmem
      rcases List.mem_cons.mp hmem with h | h
      · exact hd h.symm
      · exact hacc h

theorem natToChars_not_newline (n : Nat) : '\n' ∉ natToChars n :=
  natToCharsCore_not_newline _ _ _ (by simp)

theorem intToChars_not_newline (i : Int) : '\n' ∉ intToChars i := by
  unfold intToChars natToChars
  by_cases hi : i < 0
  · simp only [if_pos hi]
    intro hmem
    rcases List.mem_cons.mp hmem with h | h
    · cases h
    · exact natToCharsCore_not_newline _ _ _ (by simp) h
  · simp only [if_neg hi]
    exact natToCharsCore_not_newline _ _ _ (by simp)

/-- Every line the header loop of `respond` emits comes from a stored
(name, value) pair and has the shape `name ++ ": " ++ value`. -/
theorem headerLinesOf_mem {h : Headers} {l : List Char} (hl : l ∈ headerLinesOf h) :
    ∃ k vs vv, (k, vs) ∈ h ∧ vv ∈ vs ∧ l = k ++ ": ".toList ++ vv := by
  induction h with
  | nil => simp [headerLinesOf] at hl
  | cons e t ih =>
    obtain ⟨k, vs⟩ := e
    simp only [headerLinesOf, List.mem_append, List.mem_map] at hl
    rcases hl with ⟨vv, hvv, hline⟩ | hrec
    · exact ⟨k, vs, vv, List.mem_cons_self _ _, hvv, hline.symm⟩
    · obtain ⟨k', vs', vv', hmem, hvv', hline⟩ := ih hrec
      exact ⟨k', vs', vv', List.mem_cons_of_mem _ hmem, hvv', hline⟩

/-! ## Claim C7 (synthesized trailing Content-Length) -/

/-- C7.  For every rendered `Response` (whose header names and values hold
no newline, so that lines are well defined), the header section of the
output - the lines before the blank separator - consists of the status
line, then all handler-set header lines, then one final synthesized
`Content-Length` line whose value is the exact byte length of the
accumulated body.  Nothing restricts the handler's own headers: a
handler-set `Content-Length` stays in place and the synthesized line is
still appended after it, so duplicates are possible and never
deduplicated. -/
theorem c7_content_length_line (r : Response)
    (hh : ∀ p ∈ r.header, '\n' ∉ p.1 ∧ ∀ v ∈ p.2, '\n' ∉ v) :
    (splitLines (Response.respond r)).takeWhile (fun l => !l.isEmpty)
      = ("HTTP/1.1 ".toList ++ intToChars r.status ++ " OK".toList)
          :: (headerLinesOf r.header
              ++ [("Content-Length: ".toList ++ natToChars r.data.length)]) := by
  have hsl : '\n' ∉ "HTTP/1.1 ".toList ++ intToChars r.status ++ " OK".toList := by
    simp only [List.mem_append]
    rintro ((h | h) | h)
    · revert h; decide
    · exact intToChars_not_newline r.status h
    · revert h; decide
  have hclnl : '\n' ∉ ("Content-Length: ".toList ++ natToChars r.data.length) := by
    simp only [List.mem_append]
    rintro (h | h)
    · revert h; decide
    · exact natToChars_not_newline _ h
  have hlines : ∀ l ∈ headerLinesOf r.header
      ++ [("Content-Length: ".toList ++ natToChars r.data.length)], '\n' ∉ l := by
    intro l hl
    rcases List.mem_append.mp hl with hl | hl
    · obtain ⟨k, vs, vv, hmem, hvv, hline⟩ := headerLinesOf_mem hl
      obtain ⟨hk, hv⟩ := hh _ hmem
      subst hline
      simp only [List.mem_append]
      rintro ((h | h) | h)
      · exact hk h
      · revert h; decide
      · exact hv vv hvv h
    · rw [List.mem_singleton.mp hl]
      exact hclnl
  have hne2 : headerLinesOf r.header
      ++ [("Content-Length: ".toList ++ natToChars r.data.length)] ≠ [] := by
    simp
  have hnonempty : ∀ l ∈ headerLinesOf r.header
      ++ [("Content-Length: ".toList ++ natToChars r.data.length)], l ≠ [] := by
    intro l hl
    rcases List.mem_append.mp hl with hl | hl
    · obtain ⟨k, vs, vv, hmem, hvv, hline⟩ := headerLinesOf_mem hl
      subst hline
      cases k <;> simp
    · rw [List.mem_singleton.mp hl]
      simp
  simp only [Response.respond]
  rw [splitLines_append hsl, splitLines_joinLines hne2 hlines]
  rw [show splitLines ('\n' :: r.data) = [] :: splitLines r.data from by simp [splitLines]]
  rw [List.takeWhile_cons]
  simp only [show (!("HTTP/1.1 ".toList ++ intToChars r.status ++ " OK".toList).isEmpty) = true
    from by simp, if_true]
  rw [takeWhile_append_blank hnonempty]

/-- C7, witness: the handler set its own `Content-Length: 99`; the
rendered header section keeps it and still appends the synthesized
`Content-Length` for the 3-byte body after it. -/
theorem c7_content_length_line_witness :
    (∀ p ∈ ([("Content-Length".toList, ["99".toList])] : Headers),
        '\n' ∉ p.1 ∧ ∀ v ∈ p.2, '\n' ∉ v)
      ∧ (splitLines (Response.respond
            ⟨200, [("Content-Length".toList, ["99".toList])], "abc".toList⟩)).takeWhile
            (fun l => !l.isEmpty)
        = ("HTTP/1.1 ".toList ++ intToChars (200 : Int) ++ " OK".toList)
            :: (headerLinesOf [("Content-Length".toList, ["99".toList])]
                ++ [("Content-Length: ".toList ++ natToChars ("abc".toList).length)]) :=
  ⟨by decide,
    c7_content_length_line ⟨200, [("Content-Length".toList, ["99".toList])], "abc".toList⟩
      (by decide)⟩

end HttpX
